import Mathlib

/-!
Verification of the context-loading and page-rendering core of the
hbs-composer server (src/main.rs), as a shallow embedding in Lean 4.

The data model follows serde_json: `Value` is the JSON value union, and a
loaded context document is a key/value mapping with the insertion semantics
of serde_json's `Map::insert` (replace the value when the key is present,
append otherwise).  The filesystem is modelled as an inductive snapshot tree
`FsNode` whose constructors cover every outcome the Rust code distinguishes:
a nonexistent path, a regular file whose `read_to_string` either yields a
UTF-8 string or fails, a directory whose `read_dir` fails, a readable
directory with its listed entries in iteration order (plus a flag for a
`next_entry` failure after the listed entries), an entry whose `metadata`
call fails, and any other node kind (socket, device, ...).  The JSON parser
(`serde_json::from_str`) and the handlebars engine are external libraries
and enter as function parameters.
-/

/-- JSON values, as in serde_json: null, booleans, numbers, strings,
arrays and objects.  The claims under study never inspect numeric values,
so numbers are carried as integers. -/
inductive Value where
  | null : Value
  | bool (b : Bool) : Value
  | num (n : Int) : Value
  | str (s : String) : Value
  | arr (elems : List Value) : Value
  | obj (fields : List (String × Value)) : Value

/-- A context document: the key/value mapping built by the loader
(serde_json `Map<String, Value>`), keys in insertion order. -/
abbrev Doc := List (String × Value)

/-- Lookup in a document (first binding wins, as mapInsert keeps keys
unique). -/
def docGet : Doc → String → Option Value
  | [], _ => none
  | (k, v) :: rest, key => if k = key then some v else docGet rest key

/-- The keys of a document. -/
def docKeys (d : Doc) : List String := d.map (fun p => p.1)

/-- Insertion as performed by serde_json `Map::insert`: when the key is
already present its value is replaced in place, otherwise the binding is
appended at the end. -/
def mapInsert : Doc → String → Value → Doc
  | [], k, v => [(k, v)]
  | (k0, v0) :: rest, k, v =>
    if k0 = k then (k, v) :: rest else (k0, v0) :: mapInsert rest k v

/-- Outcome of `tokio::fs::read_to_string` when it fails: an I/O error, or
bytes that are not valid UTF-8 (read_to_string is documented to return an
error in that case: it reads the bytes and requires them to decode). -/
inductive ReadError where
  | ioError : ReadError
  | invalidUtf8 : ReadError

/-- A snapshot of a filesystem node as the loader can observe it. -/
inductive FsNode where
  | missing : FsNode
  | file (content : Except ReadError String) : FsNode
  | dirUnreadable : FsNode
  | dir (entries : List (String × FsNode)) (tailErr : Bool) : FsNode
  | metaFail : FsNode
  | other : FsNode

/-- Index of the last occurrence of a dot in a character list. -/
def lastDotIdx (cs : List Char) : Option Nat :=
  match cs.reverse.findIdx? (fun c => c = '.') with
  | none => none
  | some j => some (cs.length - 1 - j)

/-- Rust std's split_file_at_dot on a file name: the portion before the
last dot and, when a dot occurs beyond the first character, the portion
after it; the name ".." and names whose only dot is leading have no
extension. -/
def split_file_at_dot (name : String) : String × Option String :=
  let cs := name.toList
  if cs = ['.', '.'] then (name, none)
  else
    match lastDotIdx cs with
    | none => (name, none)
    | some 0 => (name, none)
    | some i => ((cs.take i).asString, some ((cs.drop (i + 1)).asString))

/-- Rust `Path::file_name` for a directory-entry path: the entry name,
absent only for an empty name. -/
def fileNameOf (name : String) : Option String :=
  if name.isEmpty then none else some name

/-- Rust `Path::file_stem` for a directory-entry path. -/
def file_stem (name : String) : Option String :=
  if name.isEmpty then none else some (split_file_at_dot name).1

/-- Rust `Path::extension` for a directory-entry path. -/
def extensionOf (name : String) : Option String :=
  if name.isEmpty then none else (split_file_at_dot name).2

mutual

/-- Embedding of `load_directory_recursive` (main.rs lines 13-88),
parameterised by the JSON parser `pj` (serde_json::from_str, an external
library; `none` models a parse error).  A nonexistent path yields an empty
map; a path whose `read_dir` fails (unreadable directory, or a
non-directory node) yields an error. -/
def load_directory_recursive (pj : String → Option Value) : FsNode → Except Unit Doc
  | .missing => .ok []
  | .dir es te => loadEntries pj es te []
  | _ => .error ()

/-- The entry loop of `load_directory_recursive` (lines 25-84): entries are
processed in iteration order into the accumulated map; a failing
`next_entry` after the listed entries (tailErr) propagates an error. -/
def loadEntries (pj : String → Option Value) :
    List (String × FsNode) → Bool → Doc → Except Unit Doc
  | [], te, data => if te then .error () else .ok data
  | (name, node) :: rest, te, data =>
    match processEntry pj name node data with
    | .error e => .error e
    | .ok data2 => loadEntries pj rest te data2

/-- The body of the entry loop for one entry (lines 26-83): a failing
`metadata` call propagates (line 27's question mark); a directory entry
recurses and inserts the child document under the directory name, skipping
the entry when recursion fails (lines 29-42); a file entry is dispatched on
its extension (lines 43-83); other node kinds are ignored. -/
def processEntry (pj : String → Option Value) (name : String) (node : FsNode)
    (data : Doc) : Except Unit Doc :=
  match node with
  | .metaFail => .error ()
  | .dir es te =>
    match fileNameOf name with
    | none => .ok data
    | some key =>
      match loadEntries pj es te [] with
      | .ok sub => .ok (mapInsert data key (.obj sub))
      | .error _ => .ok data
  | .dirUnreadable =>
    match fileNameOf name with
    | none => .ok data
    | some _ => .ok data
  | .file c =>
    match extensionOf name, file_stem name with
    | some ext, some key =>
      if ext = "json" then
        match c with
        | .ok content =>
          match pj content with
          | some jsonValue => .ok (mapInsert data key jsonValue)
          | none => .ok data
        | .error _ => .ok data
      else if ext = "txt" then
        match c with
        | .ok content => .ok (mapInsert data key (.str content))
        | .error _ => .ok data
      else .ok data
    | _, _ => .ok data
  | .missing => .ok data
  | .other => .ok data

end

/-- Embedding of `load_data_files` (lines 90-107): an absent data directory
yields an empty context; otherwise the recursive load's result (and its
error, via the question mark on line 98) is passed through.  The
Map-to-HashMap copy preserves the mapping. -/
def load_data_files (pj : String → Option Value) (dataDir : FsNode) :
    Except Unit Doc :=
  match dataDir with
  | .missing => .ok []
  | d => load_directory_recursive pj d

/-- An HTTP response: status code and body. -/
structure HttpResponse where
  status : Nat
  body : String

/-- Page-name defaulting (lines 114-118): an empty page identifier becomes
"index". -/
def resolve_page (page : String) : String :=
  if page.isEmpty then "index" else page

/-- The template name rendered for a page identifier (line 148). -/
def template_name (page : String) : String :=
  "pages/" ++ resolve_page page

/-- Embedding of `render_page` (lines 109-161), parameterised by the
outcomes of the external collaborators: template-directory registration,
the data load, and the handlebars render call. -/
def render_page (page : String) (registerResult : Except Unit Unit)
    (dataResult : Except Unit Doc)
    (render : String → Doc → Except Unit String) : HttpResponse :=
  let p := resolve_page page
  match registerResult with
  | .error _ => ⟨500, "Failed to load templates"⟩
  | .ok _ =>
    match dataResult with
    | .error _ => ⟨500, "Failed to load data files"⟩
    | .ok context =>
      match render ("pages/" ++ p) context with
      | .ok rendered => ⟨200, rendered⟩
      | .error _ =>
        ⟨404, "Template \x27" ++ p ++ "\x27 not found or rendering failed"⟩

/-! ### Basic lemmas about the document operations -/

/-- A trivial parser instance (rejects every input); used to instantiate the
external-parser parameter at concrete inputs. -/
def pj0 : String → Option Value := fun _ => none

theorem docGet_mapInsert_self (d : Doc) (k : String) (v : Value) :
    docGet (mapInsert d k v) k = some v := by
  induction d with
  | nil => simp [mapInsert, docGet]
  | cons p rest ih =>
    obtain ⟨k0, v0⟩ := p
    by_cases h : k0 = k
    · simp [mapInsert, h, docGet]
    · simp [mapInsert, h, docGet, ih]

theorem docGet_mapInsert_ne (d : Doc) (k : String) (v : Value) (k2 : String)
    (h : k2 ≠ k) : docGet (mapInsert d k v) k2 = docGet d k2 := by
  have hk : ¬ (k = k2) := fun hh => h hh.symm
  induction d with
  | nil => simp [mapInsert, docGet, hk]
  | cons p rest ih =>
    obtain ⟨k0, v0⟩ := p
    by_cases h0 : k0 = k
    · subst h0
      simp [mapInsert, docGet, hk]
    · simp only [mapInsert, if_neg h0]
      by_cases h2 : k0 = k2 <;> simp [docGet, h2, ih]

theorem mem_docKeys_mapInsert (d : Doc) (k : String) (v : Value) (k2 : String) :
    k2 ∈ docKeys (mapInsert d k v) ↔ k2 = k ∨ k2 ∈ docKeys d := by
  induction d with
  | nil => simp [mapInsert, docKeys]
  | cons p rest ih =>
    obtain ⟨k0, v0⟩ := p
    by_cases h0 : k0 = k
    · subst h0
      simp [mapInsert, docKeys]
      try tauto
    · simp [mapInsert, h0, docKeys] at ih ⊢
      tauto

/-! ### Per-entry behaviour of the loader loop -/

theorem file_stem_of_ext (name e : String) (h : extensionOf name = some e) :
    file_stem name = some (split_file_at_dot name).1 := by
  unfold extensionOf at h
  unfold file_stem
  by_cases he : name.isEmpty <;> simp [he] at h ⊢

theorem processEntry_dirUnreadable (pj : String → Option Value) (name : String)
    (data : Doc) : processEntry pj name .dirUnreadable data = .ok data := by
  unfold processEntry
  cases h : fileNameOf name <;> simp [h]

theorem processEntry_missing (pj : String → Option Value) (name : String)
    (data : Doc) : processEntry pj name .missing data = .ok data := rfl

theorem processEntry_other (pj : String → Option Value) (name : String)
    (data : Doc) : processEntry pj name .other data = .ok data := rfl

theorem processEntry_file_readErr (pj : String → Option Value) (name : String)
    (err : ReadError) (data : Doc) :
    processEntry pj name (.file (.error err)) data = .ok data := by
  unfold processEntry
  cases hx : extensionOf name with
  | none => cases hs : file_stem name <;> simp [hx, hs]
  | some ext =>
    cases hs : file_stem name with
    | none => simp [hx, hs]
    | some stem =>
      by_cases hj : ext = "json" <;> by_cases ht : ext = "txt" <;>
        simp [hx, hs, hj, ht]

theorem processEntry_json_malformed (pj : String → Option Value) (name s : String)
    (data : Doc) (hx : extensionOf name = some "json") (hp : pj s = none) :
    processEntry pj name (.file (.ok s)) data = .ok data := by
  have hs := file_stem_of_ext name "json" hx
  unfold processEntry
  simp [hx, hs, hp]

theorem processEntry_json_ok (pj : String → Option Value) (name stem s : String)
    (v : Value) (data : Doc) (hx : extensionOf name = some "json")
    (hs : file_stem name = some stem) (hp : pj s = some v) :
    processEntry pj name (.file (.ok s)) data = .ok (mapInsert data stem v) := by
  unfold processEntry
  simp [hx, hs, hp]

theorem processEntry_txt_ok (pj : String → Option Value) (name stem s : String)
    (data : Doc) (hx : extensionOf name = some "txt")
    (hs : file_stem name = some stem) :
    processEntry pj name (.file (.ok s)) data = .ok (mapInsert data stem (.str s)) := by
  unfold processEntry
  simp [hx, hs]

theorem processEntry_other_ext (pj : String → Option Value) (name ext : String)
    (c : Except ReadError String) (data : Doc) (hx : extensionOf name = some ext)
    (hj : ext ≠ "json") (ht : ext ≠ "txt") :
    processEntry pj name (.file c) data = .ok data := by
  have hs := file_stem_of_ext name ext hx
  unfold processEntry
  simp [hx, hs, hj, ht]

theorem processEntry_no_ext (pj : String → Option Value) (name : String)
    (c : Except ReadError String) (data : Doc) (hx : extensionOf name = none) :
    processEntry pj name (.file c) data = .ok data := by
  unfold processEntry
  cases hs : file_stem name <;> simp [hx, hs]

theorem processEntry_dir_ok (pj : String → Option Value) (name : String)
    (es : List (String × FsNode)) (te : Bool) (data : Doc) (sub : Doc)
    (hname : ¬ name.isEmpty)
    (hsub : load_directory_recursive pj (.dir es te) = .ok sub) :
    processEntry pj name (.dir es te) data = .ok (mapInsert data name (.obj sub)) := by
  have hsub2 : loadEntries pj es te [] = .ok sub := hsub
  unfold processEntry
  simp [fileNameOf, hname, hsub2]

theorem processEntry_dir_err (pj : String → Option Value) (name : String)
    (es : List (String × FsNode)) (te : Bool) (data : Doc)
    (hsub : load_directory_recursive pj (.dir es te) = .error ()) :
    processEntry pj name (.dir es te) data = .ok data := by
  have hsub2 : loadEntries pj es te [] = .error () := hsub
  unfold processEntry
  cases h : fileNameOf name <;> simp [h, hsub2]

/-! ### Loop-level lemmas -/

theorem processEntry_ok_of_ne_metaFail (pj : String → Option Value) (name : String)
    (node : FsNode) (data : Doc) (h : node ≠ FsNode.metaFail) :
    ∃ d2, processEntry pj name node data = .ok d2 := by
  cases node with
  | metaFail => exact absurd rfl h
  | missing => exact ⟨data, rfl⟩
  | other => exact ⟨data, rfl⟩
  | dirUnreadable => exact ⟨data, processEntry_dirUnreadable pj name data⟩
  | file c =>
    cases hx : extensionOf name with
    | none => exact ⟨data, processEntry_no_ext pj name c data hx⟩
    | some ext =>
      by_cases hj : ext = "json"
      · subst hj
        cases c with
        | error err => exact ⟨data, processEntry_file_readErr pj name err data⟩
        | ok s =>
          cases hp : pj s with
          | none => exact ⟨data, processEntry_json_malformed pj name s data hx hp⟩
          | some v =>
            exact ⟨_, processEntry_json_ok pj name (split_file_at_dot name).1 s v data
              hx (file_stem_of_ext name "json" hx) hp⟩
      · by_cases ht : ext = "txt"
        · subst ht
          cases c with
          | error err => exact ⟨data, processEntry_file_readErr pj name err data⟩
          | ok s =>
            exact ⟨_, processEntry_txt_ok pj name (split_file_at_dot name).1 s data
              hx (file_stem_of_ext name "txt" hx)⟩
        · exact ⟨data, processEntry_other_ext pj name ext c data hx hj ht⟩
  | dir es te =>
    cases hsub : loadEntries pj es te [] with
    | error e =>
      cases e
      exact ⟨data, processEntry_dir_err pj name es te data hsub⟩
    | ok sub =>
      by_cases hname : name.isEmpty
      · refine ⟨data, ?_⟩
        unfold processEntry
        simp [fileNameOf, hname]
      · exact ⟨_, processEntry_dir_ok pj name es te data sub hname hsub⟩

theorem loadEntries_ok_of_no_metaFail (pj : String → Option Value)
    (es : List (String × FsNode)) (data : Doc)
    (h : ∀ p ∈ es, p.2 ≠ FsNode.metaFail) :
    ∃ d, loadEntries pj es false data = .ok d := by
  induction es generalizing data with
  | nil => exact ⟨data, rfl⟩
  | cons p rest ih =>
    obtain ⟨name, node⟩ := p
    have hnode : node ≠ FsNode.metaFail := h (name, node) (by simp)
    obtain ⟨d2, hd2⟩ := processEntry_ok_of_ne_metaFail pj name node data hnode
    have hstep : loadEntries pj ((name, node) :: rest) false data
        = loadEntries pj rest false d2 := by
      conv_lhs => unfold loadEntries
      rw [hd2]
    rw [hstep]
    exact ih d2 (fun q hq => h q (by simp [hq]))

theorem loadEntries_nil (pj : String → Option Value) (te : Bool) (data : Doc) :
    loadEntries pj [] te data = if te then .error () else .ok data := rfl

theorem loadEntries_cons (pj : String → Option Value) (name : String)
    (node : FsNode) (rest : List (String × FsNode)) (te : Bool) (data : Doc) :
    loadEntries pj ((name, node) :: rest) te data =
      match processEntry pj name node data with
      | .error e => .error e
      | .ok data2 => loadEntries pj rest te data2 := rfl

theorem loadEntries_skip (pj : String → Option Value) (name : String)
    (node : FsNode)
    (hskip : ∀ data, processEntry pj name node data = .ok data)
    (es1 es2 : List (String × FsNode)) (te : Bool) (data : Doc) :
    loadEntries pj (es1 ++ (name, node) :: es2) te data
      = loadEntries pj (es1 ++ es2) te data := by
  induction es1 generalizing data with
  | nil =>
    rw [List.nil_append, List.nil_append, loadEntries_cons, hskip data]
  | cons p rest ih =>
    obtain ⟨n0, nd0⟩ := p
    rw [List.cons_append, List.cons_append, loadEntries_cons, loadEntries_cons]
    cases hp : processEntry pj n0 nd0 data with
    | error e => rfl
    | ok d2 => exact ih d2

/-! ### Key provenance -/

/-- The key a directory entry can contribute to the parent document: the
name itself for a directory, the stem for a file that has an extension,
nothing otherwise. -/
def keyOfEntry : String × FsNode → Option String
  | (name, .dir _ _) => fileNameOf name
  | (name, .file _) =>
    match extensionOf name with
    | some _ => file_stem name
    | none => none
  | _ => none

theorem processEntry_keys (pj : String → Option Value) (name : String)
    (node : FsNode) (data d2 : Doc)
    (h : processEntry pj name node data = .ok d2) :
    ∀ k ∈ docKeys d2, k ∈ docKeys data ∨ keyOfEntry (name, node) = some k := by
  intro k hk
  cases node with
  | metaFail => exact absurd h (by simp [processEntry])
  | missing =>
    rw [processEntry_missing] at h
    cases h
    exact Or.inl hk
  | other =>
    rw [processEntry_other] at h
    cases h
    exact Or.inl hk
  | dirUnreadable =>
    rw [processEntry_dirUnreadable] at h
    cases h
    exact Or.inl hk
  | dir es te =>
    by_cases hname : name.isEmpty
    · have hskip : processEntry pj name (.dir es te) data = .ok data := by
        unfold processEntry
        simp [fileNameOf, hname]
      rw [hskip] at h
      cases h
      exact Or.inl hk
    · cases hsub : loadEntries pj es te [] with
      | error e =>
        cases e
        rw [processEntry_dir_err pj name es te data hsub] at h
        cases h
        exact Or.inl hk
      | ok sub =>
        rw [processEntry_dir_ok pj name es te data sub hname hsub] at h
        cases h
        rcases (mem_docKeys_mapInsert data name (.obj sub) k).mp hk with he | hd
        · subst he
          exact Or.inr (by simp [keyOfEntry, fileNameOf, hname])
        · exact Or.inl hd
  | file c =>
    cases hx : extensionOf name with
    | none =>
      rw [processEntry_no_ext pj name c data hx] at h
      cases h
      exact Or.inl hk
    | some ext =>
      have hs := file_stem_of_ext name ext hx
      by_cases hj : ext = "json"
      · subst hj
        cases c with
        | error err =>
          rw [processEntry_file_readErr pj name err data] at h
          cases h
          exact Or.inl hk
        | ok s =>
          cases hp : pj s with
          | none =>
            rw [processEntry_json_malformed pj name s data hx hp] at h
            cases h
            exact Or.inl hk
          | some v =>
            rw [processEntry_json_ok pj name _ s v data hx hs hp] at h
            cases h
            rcases (mem_docKeys_mapInsert data _ v k).mp hk with he | hd
            · subst he
              exact Or.inr (by simp [keyOfEntry, hx, hs])
            · exact Or.inl hd
      · by_cases ht : ext = "txt"
        · subst ht
          cases c with
          | error err =>
            rw [processEntry_file_readErr pj name err data] at h
            cases h
            exact Or.inl hk
          | ok s =>
            rw [processEntry_txt_ok pj name _ s data hx hs] at h
            cases h
            rcases (mem_docKeys_mapInsert data _ (.str s) k).mp hk with he | hd
            · subst he
              exact Or.inr (by simp [keyOfEntry, hx, hs])
            · exact Or.inl hd
        · rw [processEntry_other_ext pj name ext c data hx hj ht] at h
          cases h
          exact Or.inl hk

theorem loadEntries_keys (pj : String → Option Value)
    (es : List (String × FsNode)) (te : Bool) (data d : Doc)
    (h : loadEntries pj es te data = .ok d) :
    ∀ k ∈ docKeys d, k ∈ docKeys data ∨ ∃ p ∈ es, keyOfEntry p = some k := by
  induction es generalizing data with
  | nil =>
    intro k hk
    rw [loadEntries_nil] at h
    cases te with
    | true => cases h
    | false =>
      cases h
      exact Or.inl hk
  | cons p rest ih =>
    obtain ⟨name, node⟩ := p
    intro k hk
    rw [loadEntries_cons] at h
    cases hp : processEntry pj name node data with
    | error e =>
      rw [hp] at h
      cases h
    | ok d2 =>
      rw [hp] at h
      rcases ih d2 h k hk with hd2 | ⟨q, hq, hkq⟩
      · rcases processEntry_keys pj name node data d2 hp k hd2 with hd | hkey
        · exact Or.inl hd
        · exact Or.inr ⟨(name, node), by simp, hkey⟩
      · exact Or.inr ⟨q, by simp [hq], hkq⟩

/-! ### Claims -/

/-- C3: loading a nonexistent root directory returns an empty document and
is not an error; the recursive loader and `load_data_files` both map an
absent root to a successful, empty result. -/
theorem c3_missing_root_empty_doc (pj : String → Option Value) :
    load_directory_recursive pj .missing = .ok []
      ∧ load_data_files pj .missing = .ok [] :=
  ⟨rfl, rfl⟩

/-- C9: loading the same unchanged directory tree twice yields structurally
equal documents: two successful runs of the loader over an identical
filesystem snapshot produce the same mapping (equal documents, and equal
lookups at every key). -/
theorem c9_load_deterministic (pj : String → Option Value) (t : FsNode)
    (d1 d2 : Doc) (h1 : load_directory_recursive pj t = .ok d1)
    (h2 : load_directory_recursive pj t = .ok d2) :
    d1 = d2 ∧ ∀ k, docGet d1 k = docGet d2 k := by
  rw [h1] at h2
  cases h2
  exact ⟨rfl, fun k => rfl⟩

/-- Witness for C9 at a concrete one-file tree. -/
theorem c9_witness :
    ([("b", Value.str "hello")] : Doc) = [("b", Value.str "hello")]
      ∧ docGet [("b", Value.str "hello")] "b"
          = docGet [("b", Value.str "hello")] "b" := by
  have h := c9_load_deterministic pj0 (.dir [("b.txt", .file (.ok "hello"))] false)
    [("b", Value.str "hello")] [("b", Value.str "hello")] rfl rfl
  exact ⟨h.1, h.2 "b"⟩

/-- C8: an empty page identifier is replaced by the default identifier
"index" before template resolution, so requesting the root route renders
exactly what requesting the page "index" renders, and the resolved template
name is "pages/index". -/
theorem c8_root_route_defaults_to_index (reg : Except Unit Unit)
    (dres : Except Unit Doc) (rnd : String → Doc → Except Unit String) :
    render_page "" reg dres rnd = render_page "index" reg dres rnd
      ∧ template_name "" = "pages/index" :=
  ⟨rfl, rfl⟩

/-- C7: response classification of `render_page`: status 200 exactly when
registration, data load and render all succeed; status 404 exactly when the
named template cannot be rendered (registration and data load succeeded);
status 500 exactly when template registration or the data load fails; and
no other status occurs, so an unknown page never yields a 500. -/
theorem c7_response_status_classification (page : String)
    (reg : Except Unit Unit) (dres : Except Unit Doc)
    (rnd : String → Doc → Except Unit String) :
    ((render_page page reg dres rnd).status = 200 ↔
      ∃ d s, reg = Except.ok () ∧ dres = Except.ok d
        ∧ rnd (template_name page) d = Except.ok s)
    ∧ ((render_page page reg dres rnd).status = 404 ↔
      ∃ d, reg = Except.ok () ∧ dres = Except.ok d
        ∧ rnd (template_name page) d = Except.error ())
    ∧ ((render_page page reg dres rnd).status = 500 ↔
      reg = Except.error () ∨ dres = Except.error ())
    ∧ ((render_page page reg dres rnd).status = 200
      ∨ (render_page page reg dres rnd).status = 404
      ∨ (render_page page reg dres rnd).status = 500)
    ∧ (∀ d s, reg = Except.ok () → dres = Except.ok d →
      rnd (template_name page) d = Except.ok s →
      render_page page reg dres rnd = ⟨200, s⟩) := by
  cases reg with
  | error e =>
    cases e
    simp [render_page, template_name]
  | ok u =>
    cases u
    cases dres with
    | error e =>
      cases e
      simp [render_page, template_name]
    | ok d0 =>
      cases hr : rnd ("pages/" ++ resolve_page page) d0 with
      | error e =>
        cases e
        simp [render_page, template_name, hr]
        intro d s hd
        subst hd
        rw [hr]
        simp
      | ok s0 =>
        simp [render_page, template_name, hr]
        intro d s hd
        subst hd
        rw [hr]
        simp

/-- A parser instance that accepts exactly the text "7" (as the number 7);
used to instantiate the external-parser parameter at concrete inputs. -/
def pjNum7 : String → Option Value :=
  fun s => if s = "7" then some (Value.num 7) else none

/-- C2: extension dispatch for regular files: a ".json" file whose contents
parse inserts the parsed value under the stem; a ".txt" file inserts its
raw text (untrimmed) as a String under the stem; any other extension, or no
extension, inserts no key. -/
theorem c2_file_type_dispatch (pj : String → Option Value)
    (name stem s : String) (v : Value) (data : Doc)
    (c : Except ReadError String) :
    (extensionOf name = some "json" → file_stem name = some stem →
      pj s = some v →
      processEntry pj name (.file (.ok s)) data = .ok (mapInsert data stem v))
    ∧ (extensionOf name = some "txt" → file_stem name = some stem →
      processEntry pj name (.file (.ok s)) data
        = .ok (mapInsert data stem (.str s)))
    ∧ (∀ ext, extensionOf name = some ext → ext ≠ "json" → ext ≠ "txt" →
      processEntry pj name (.file c) data = .ok data)
    ∧ (extensionOf name = none → processEntry pj name (.file c) data = .ok data) := by
  refine ⟨?_, ?_, ?_, ?_⟩
  · exact fun hx hs hp => processEntry_json_ok pj name stem s v data hx hs hp
  · exact fun hx hs => processEntry_txt_ok pj name stem s data hx hs
  · exact fun ext hx hj ht => processEntry_other_ext pj name ext c data hx hj ht
  · exact fun hx => processEntry_no_ext pj name c data hx

/-- Witness for C2: dispatch at a parsed JSON file, a text file, a csv file
and an extension-free file. -/
theorem c2_witness :
    processEntry pjNum7 "a.json" (.file (.ok "7")) [] = .ok [("a", Value.num 7)]
    ∧ processEntry pj0 "b.txt" (.file (.ok "hello")) []
        = .ok [("b", Value.str "hello")]
    ∧ processEntry pj0 "c.csv" (.file (.ok "z")) [] = .ok []
    ∧ processEntry pj0 "noext" (.file (.ok "z")) [] = .ok [] := by
  refine ⟨?_, ?_, ?_, ?_⟩
  · exact (c2_file_type_dispatch pjNum7 "a.json" "a" "7" (Value.num 7) []
      (.ok "7")).1 rfl rfl rfl
  · exact (c2_file_type_dispatch pj0 "b.txt" "b" "hello" Value.null []
      (.ok "hello")).2.1 rfl rfl
  · exact (c2_file_type_dispatch pj0 "c.csv" "c" "z" Value.null []
      (.ok "z")).2.2.1 "csv" rfl (by decide) (by decide)
  · exact (c2_file_type_dispatch pj0 "noext" "noext" "z" Value.null []
      (.ok "z")).2.2.2 rfl

/-- C4: a directory entry recurses depth-first; successful recursion
inserts the child document under the directory's base name as an Object,
failed recursion inserts no key; and the concrete tree sub/x.txt = "v"
loads to the document mapping "sub" to the object mapping "x" to "v". -/
theorem c4_directory_recursion (pj : String → Option Value) :
    (∀ name es te data sub, ¬ name.isEmpty →
      load_directory_recursive pj (.dir es te) = .ok sub →
      processEntry pj name (.dir es te) data
        = .ok (mapInsert data name (.obj sub)))
    ∧ (∀ name es te data,
      load_directory_recursive pj (.dir es te) = .error () →
      processEntry pj name (.dir es te) data = .ok data)
    ∧ load_directory_recursive pj
        (.dir [("sub", .dir [("x.txt", .file (.ok "v"))] false)] false)
        = .ok [("sub", Value.obj [("x", Value.str "v")])] := by
  refine ⟨?_, ?_, rfl⟩
  · exact fun name es te data sub hn hs =>
      processEntry_dir_ok pj name es te data sub hn hs
  · exact fun name es te data hs => processEntry_dir_err pj name es te data hs

/-- Witness for C4: successful recursion into sub/, and a skipped entry
whose recursive load fails (a listing that dies mid-iteration). -/
theorem c4_witness :
    processEntry pj0 "sub" (.dir [("x.txt", .file (.ok "v"))] false) []
        = .ok [("sub", Value.obj [("x", Value.str "v")])]
    ∧ processEntry pj0 "bad" (.dir [] true) [] = .ok [] := by
  refine ⟨?_, ?_⟩
  · exact (c4_directory_recursion pj0).1 "sub" [("x.txt", .file (.ok "v"))]
      false [] [("x", Value.str "v")] (by decide) rfl
  · exact (c4_directory_recursion pj0).2.1 "bad" [] true [] rfl

/-- C5: a directory holding one malformed JSON file and one valid text file
loads successfully (in either listing order) to a document that contains
the text file's key with its contents and no key for the malformed JSON
file. -/
theorem c5_partial_failure_tolerance (pj : String → Option Value)
    (nameJ stemJ sJ nameT stemT sT : String)
    (hxJ : extensionOf nameJ = some "json") (_hsJ : file_stem nameJ = some stemJ)
    (hpJ : pj sJ = none)
    (hxT : extensionOf nameT = some "txt") (hsT : file_stem nameT = some stemT)
    (hne : stemJ ≠ stemT) :
    (load_directory_recursive pj
        (.dir [(nameJ, .file (.ok sJ)), (nameT, .file (.ok sT))] false)
        = .ok [(stemT, Value.str sT)]
      ∧ docGet [(stemT, Value.str sT)] stemT = some (Value.str sT)
      ∧ docGet [(stemT, Value.str sT)] stemJ = none)
    ∧ load_directory_recursive pj
        (.dir [(nameT, .file (.ok sT)), (nameJ, .file (.ok sJ))] false)
        = .ok [(stemT, Value.str sT)] := by
  have h1 : processEntry pj nameJ (.file (.ok sJ)) [] = .ok [] :=
    processEntry_json_malformed pj nameJ sJ [] hxJ hpJ
  have h2 : processEntry pj nameT (.file (.ok sT)) []
      = .ok [(stemT, Value.str sT)] :=
    processEntry_txt_ok pj nameT stemT sT [] hxT hsT
  have h3 : processEntry pj nameJ (.file (.ok sJ)) [(stemT, Value.str sT)]
      = .ok [(stemT, Value.str sT)] :=
    processEntry_json_malformed pj nameJ sJ [(stemT, Value.str sT)] hxJ hpJ
  refine ⟨⟨?_, ?_, ?_⟩, ?_⟩
  · show loadEntries pj [(nameJ, .file (.ok sJ)), (nameT, .file (.ok sT))]
      false [] = Except.ok [(stemT, Value.str sT)]
    rw [loadEntries_cons, h1]
    show loadEntries pj [(nameT, .file (.ok sT))] false [] = _
    rw [loadEntries_cons, h2]
    rfl
  · simp [docGet]
  · simp only [docGet, if_neg (Ne.symm hne)]
  · show loadEntries pj [(nameT, .file (.ok sT)), (nameJ, .file (.ok sJ))]
      false [] = Except.ok [(stemT, Value.str sT)]
    rw [loadEntries_cons, h2]
    show loadEntries pj [(nameJ, .file (.ok sJ))] false [(stemT, Value.str sT)] = _
    rw [loadEntries_cons, h3]
    rfl

/-- Witness for C5 at bad.json (unparsable "oops") next to good.txt
("hello"). -/
theorem c5_witness :
    (load_directory_recursive pj0
        (.dir [("bad.json", .file (.ok "oops")), ("good.txt", .file (.ok "hello"))]
          false)
        = .ok [("good", Value.str "hello")]
      ∧ docGet [("good", Value.str "hello")] "good" = some (Value.str "hello")
      ∧ docGet [("good", Value.str "hello")] "bad" = none)
    ∧ load_directory_recursive pj0
        (.dir [("good.txt", .file (.ok "hello")), ("bad.json", .file (.ok "oops"))]
          false)
        = .ok [("good", Value.str "hello")] :=
  c5_partial_failure_tolerance pj0 "bad.json" "bad" "oops" "good.txt" "good"
    "hello" rfl rfl rfl rfl rfl (by decide)

/-- C10: a file whose bytes are not valid UTF-8 is a read failure and
contributes no key; conversely an entry for a regular file can change the
document only when its contents were read as a UTF-8 string. -/
theorem c10_invalid_utf8_read_failure :
    (∀ (pj : String → Option Value) (name : String) (data : Doc),
      processEntry pj name (.file (.error ReadError.invalidUtf8)) data
        = .ok data)
    ∧ (∀ (pj : String → Option Value) (name : String)
        (c : Except ReadError String) (data d : Doc),
      processEntry pj name (.file c) data = .ok d → d ≠ data →
      ∃ s, c = Except.ok s) := by
  refine ⟨?_, ?_⟩
  · exact fun pj name data => processEntry_file_readErr pj name .invalidUtf8 data
  · intro pj name c data d h hne
    cases c with
    | ok s => exact ⟨s, rfl⟩
    | error err =>
      rw [processEntry_file_readErr pj name err data] at h
      cases h
      exact absurd rfl hne

/-- Witness for C10: a non-UTF-8 text file inserts nothing; a file whose
processing did insert a key was read as a string. -/
theorem c10_witness :
    processEntry pj0 "x.txt" (.file (.error ReadError.invalidUtf8)) [] = .ok []
    ∧ ∃ s, (Except.ok "hello" : Except ReadError String) = Except.ok s :=
  ⟨c10_invalid_utf8_read_failure.1 pj0 "x.txt" [],
    c10_invalid_utf8_read_failure.2 pj0 "b.txt" (.ok "hello") []
      [("b", Value.str "hello")] rfl (by simp)⟩

/-- C6: every key of a loaded document comes from a filesystem name (the
stem for a file with an extension, the name verbatim for a directory);
insertion is last-write-wins: inserting a key overwrites an earlier binding
of the same key and leaves other keys unchanged, and in particular a
colliding .json/.txt stem pair resolves to the later entry's value. -/
theorem c6_key_provenance_last_write_wins :
    (∀ (pj : String → Option Value) (es : List (String × FsNode)) (te : Bool)
        (d : Doc),
      load_directory_recursive pj (.dir es te) = .ok d →
      ∀ k ∈ docKeys d, ∃ p ∈ es, keyOfEntry p = some k)
    ∧ (∀ (d : Doc) (k : String) (v : Value),
      docGet (mapInsert d k v) k = some v)
    ∧ (∀ (d : Doc) (k : String) (v : Value) (k2 : String), k2 ≠ k →
      docGet (mapInsert d k v) k2 = docGet d k2)
    ∧ (∀ (pj : String → Option Value) (n1 n2 stem s1 s2 : String) (v : Value),
      extensionOf n1 = some "json" → file_stem n1 = some stem →
      extensionOf n2 = some "txt" → file_stem n2 = some stem →
      pj s1 = some v →
      load_directory_recursive pj
          (.dir [(n1, .file (.ok s1)), (n2, .file (.ok s2))] false)
        = .ok [(stem, Value.str s2)]) := by
  refine ⟨?_, ?_, ?_, ?_⟩
  · intro pj es te d h k hk
    rcases loadEntries_keys pj es te [] d h k hk with hnil | hfound
    · simp [docKeys] at hnil
    · exact hfound
  · exact fun d k v => docGet_mapInsert_self d k v
  · exact fun d k v k2 h => docGet_mapInsert_ne d k v k2 h
  · intro pj n1 n2 stem s1 s2 v hx1 hs1 hx2 hs2 hp
    have h1 : processEntry pj n1 (.file (.ok s1)) [] = .ok [(stem, v)] :=
      processEntry_json_ok pj n1 stem s1 v [] hx1 hs1 hp
    have h2 : processEntry pj n2 (.file (.ok s2)) [(stem, v)]
        = .ok [(stem, Value.str s2)] := by
      rw [processEntry_txt_ok pj n2 stem s2 [(stem, v)] hx2 hs2]
      simp [mapInsert]
    show loadEntries pj [(n1, .file (.ok s1)), (n2, .file (.ok s2))] false []
      = Except.ok [(stem, Value.str s2)]
    rw [loadEntries_cons, h1]
    show loadEntries pj [(n2, .file (.ok s2))] false [(stem, v)] = _
    rw [loadEntries_cons, h2]
    rfl

/-- Witness for C6: provenance of the key "a" in a one-file load, the two
mapInsert facts at concrete arguments, and the json/txt stem collision
resolving to the later (txt) value. -/
theorem c6_witness :
    (∃ p ∈ [("a.txt", FsNode.file (Except.ok "h"))], keyOfEntry p = some "a")
    ∧ docGet (mapInsert [] "x" (Value.num 1)) "x" = some (Value.num 1)
    ∧ docGet (mapInsert [] "x" (Value.num 1)) "y" = docGet [] "y"
    ∧ load_directory_recursive pjNum7
        (.dir [("a.json", .file (.ok "7")), ("a.txt", .file (.ok "hi"))] false)
      = .ok [("a", Value.str "hi")] :=
  ⟨c6_key_provenance_last_write_wins.1 pj0 [("a.txt", .file (.ok "h"))] false
      [("a", Value.str "h")] rfl "a" (by simp [docKeys]),
    c6_key_provenance_last_write_wins.2.1 [] "x" (Value.num 1),
    c6_key_provenance_last_write_wins.2.2.1 [] "x" (Value.num 1) "y" (by decide),
    c6_key_provenance_last_write_wins.2.2.2 pjNum7 "a.json" "a.txt" "a" "7" "hi"
      (Value.num 7) rfl rfl rfl rfl rfl⟩

/-- C1 counterexample: the load can fail as a whole.  An existing but
unreadable root directory makes the load return an error rather than a
document; and a failing metadata fetch on one entry aborts the whole
directory, including a sibling text file that loads fine on its own. -/
theorem c1_counterexample :
    load_directory_recursive pj0 FsNode.dirUnreadable = .error ()
    ∧ load_directory_recursive pj0
        (.dir [("a", FsNode.metaFail), ("b.txt", .file (.ok "v"))] false)
        = .error ()
    ∧ load_directory_recursive pj0 (.dir [("b.txt", .file (.ok "v"))] false)
        = .ok [("b", Value.str "v")] :=
  ⟨rfl, rfl, rfl⟩

/-- C1 (amended): when the root's listing is read to completion and every
listed entry's metadata fetch succeeds, the load never fails as a whole;
and the per-entry failures the claim enumerates — unreadable child
directory, unreadable file, malformed JSON — are caught locally: the
offending entry is omitted and the sibling entries load exactly as they
would without it. -/
theorem c1_amended_partial_failure_policy :
    (∀ (pj : String → Option Value) (es : List (String × FsNode)),
      (∀ p ∈ es, p.2 ≠ FsNode.metaFail) →
      ∃ d, load_directory_recursive pj (.dir es false) = .ok d)
    ∧ (∀ (pj : String → Option Value) (name : String)
        (es1 es2 : List (String × FsNode)),
      load_directory_recursive pj
          (.dir (es1 ++ (name, FsNode.dirUnreadable) :: es2) false)
        = load_directory_recursive pj (.dir (es1 ++ es2) false))
    ∧ (∀ (pj : String → Option Value) (name : String) (err : ReadError)
        (es1 es2 : List (String × FsNode)),
      load_directory_recursive pj
          (.dir (es1 ++ (name, FsNode.file (.error err)) :: es2) false)
        = load_directory_recursive pj (.dir (es1 ++ es2) false))
    ∧ (∀ (pj : String → Option Value) (name s : String)
        (es1 es2 : List (String × FsNode)),
      extensionOf name = some "json" → pj s = none →
      load_directory_recursive pj
          (.dir (es1 ++ (name, FsNode.file (.ok s)) :: es2) false)
        = load_directory_recursive pj (.dir (es1 ++ es2) false)) := by
  refine ⟨?_, ?_, ?_, ?_⟩
  · exact fun pj es h => loadEntries_ok_of_no_metaFail pj es [] h
  · intro pj name es1 es2
    exact loadEntries_skip pj name .dirUnreadable
      (fun data => processEntry_dirUnreadable pj name data) es1 es2 false []
  · intro pj name err es1 es2
    exact loadEntries_skip pj name (.file (.error err))
      (fun data => processEntry_file_readErr pj name err data) es1 es2 false []
  · intro pj name s es1 es2 hx hp
    exact loadEntries_skip pj name (.file (.ok s))
      (fun data => processEntry_json_malformed pj name s data hx hp) es1 es2
      false []

/-- Witness for C1 (amended): a clean one-entry root loads; dropping in an
unreadable subdirectory, an unreadable file, or a malformed JSON file next
to it leaves the result exactly that of the clean root. -/
theorem c1_amended_witness :
    (∃ d, load_directory_recursive pj0
        (.dir [("b.txt", .file (.ok "v"))] false) = .ok d)
    ∧ load_directory_recursive pj0
        (.dir [("bad", FsNode.dirUnreadable), ("b.txt", .file (.ok "v"))] false)
      = load_directory_recursive pj0 (.dir [("b.txt", .file (.ok "v"))] false)
    ∧ load_directory_recursive pj0
        (.dir [("u.txt", FsNode.file (.error ReadError.ioError)),
          ("b.txt", .file (.ok "v"))] false)
      = load_directory_recursive pj0 (.dir [("b.txt", .file (.ok "v"))] false)
    ∧ load_directory_recursive pj0
        (.dir [("bad.json", .file (.ok "oops")), ("b.txt", .file (.ok "v"))] false)
      = load_directory_recursive pj0 (.dir [("b.txt", .file (.ok "v"))] false) :=
  ⟨c1_amended_partial_failure_policy.1 pj0 [("b.txt", .file (.ok "v"))]
      (by intro p hp; simp at hp; subst hp; simp),
    c1_amended_partial_failure_policy.2.1 pj0 "bad" []
      [("b.txt", .file (.ok "v"))],
    c1_amended_partial_failure_policy.2.2.1 pj0 "u.txt" ReadError.ioError []
      [("b.txt", .file (.ok "v"))],
    c1_amended_partial_failure_policy.2.2.2 pj0 "bad.json" "oops" []
      [("b.txt", .file (.ok "v"))] rfl rfl⟩

/-- A render collaborator that renders every template to "hi"; used to
instantiate the external-engine parameter at concrete inputs. -/
def rnd0 : String → Doc → Except Unit String := fun _ _ => Except.ok "hi"

/-- Witness for C7: a request whose collaborators all succeed yields the
200 response carrying the rendered text. -/
theorem c7_witness :
    render_page "index" (Except.ok ()) (Except.ok []) rnd0
      = ⟨200, "hi"⟩ :=
  (c7_response_status_classification "index" (Except.ok ()) (Except.ok [])
    rnd0).2.2.2.2 [] "hi" rfl rfl rfl
